import Mathlib

/-!
# Verification of `pptx_builder.core`

A shallow embedding of the core module of the `pptx-builder` repository
(`src/pptx_builder/core.py`) together with theorems settling the frozen
claims about it.

Modelling conventions:
* Python floats are modelled as exact rationals (`ℚ`); the placement
  arithmetic of the source only divides, multiplies, adds and halves, so
  every claim about it that holds exactly over `ℚ` holds within floating
  tolerance over IEEE doubles.
* Python's `ZeroDivisionError` (raised by `sw / img_w` when a source image
  has a zero dimension) is surfaced as an explicit `Except` error; the
  spec calls this error kind `DegenerateImage`.
* Python's `int(x)` truncates toward zero; `pyInt` below mirrors that.
* Filesystem effects (`Presentation.save`, which opens the destination
  with `open(path, "wb")`) are modelled by explicit state passing over a
  small filesystem record.
-/

namespace PptxBuilder

/-! ## Errors

The failure kinds that the embedded core can signal.  `degenerateImage`
models the `ZeroDivisionError` Python raises inside
`place_picture_fit` / `place_picture_fill` when the natural width or
height of the inserted picture is zero (spec error kind
`DegenerateImage`); `writeFailure` models the `FileNotFoundError` raised
by `open(path, "wb")` when the destination's parent directory does not
exist (spec error kind `WriteFailure`). -/
inductive CoreError where
  | degenerateImage
  | writeFailure
  deriving DecidableEq, Repr

/-- Python float division `a / b`: raises `ZeroDivisionError` when `b = 0`,
otherwise exact division (floats modelled as rationals). -/
def pyDiv (a b : ℚ) : Except CoreError ℚ :=
  if b = 0 then .error .degenerateImage else .ok (a / b)

/-- Python `int(x)` on a float: truncation toward zero. -/
def pyInt (q : ℚ) : ℤ :=
  if 0 ≤ q then ⌊q⌋ else ⌈q⌉

/-- Python `min(a, b)`: the first argument on ties. -/
def pyMin (a b : ℚ) : ℚ := if a ≤ b then a else b

/-- Python `max(a, b)`: the first argument on ties. -/
def pyMax (a b : ℚ) : ℚ := if b ≤ a then a else b

theorem pyMin_eq_min (a b : ℚ) : pyMin a b = min a b := by
  unfold pyMin
  rcases le_total a b with h | h
  · rw [if_pos h, min_eq_left h]
  · by_cases h' : a ≤ b
    · rw [if_pos h', min_eq_left h']
    · rw [if_neg h', min_eq_right h]

theorem pyMax_eq_max (a b : ℚ) : pyMax a b = max a b := by
  unfold pyMax
  rcases le_total b a with h | h
  · rw [if_pos h, max_eq_left h]
  · by_cases h' : b ≤ a
    · rw [if_pos h', max_eq_left h']
    · rw [if_neg h', max_eq_right h]

/-! ## Placement Calculator (`place_picture_fit` / `place_picture_fill`)

The two source functions first insert the picture at natural size, read
its natural EMU dimensions `img_w, img_h` as floats, convert the slide
EMU dimensions to floats `sw, sh`, and then run pure float arithmetic to
obtain the scaled size and centred offset.  `PlacementResult` is that
pure arithmetic part (lines 142–154 resp. 170–182 of `core.py`); the
final integer geometry written back onto the picture shape
(`pic.left = int(left)` …) is `Picture` below. -/

structure PlacementResult where
  new_w : ℚ
  new_h : ℚ
  left : ℚ
  top : ℚ
  deriving DecidableEq, Repr

/-- The float computation of `place_picture_fit` (core.py lines 142–154):
`scale = min(sw / img_w, sh / img_h)` ("contain"), scaled size
`img_w * scale, img_h * scale`, centred offsets. -/
def compute_fit (img_w img_h sw sh : ℚ) : Except CoreError PlacementResult := do
  let rw ← pyDiv sw img_w
  let rh ← pyDiv sh img_h
  let scale := pyMin rw rh
  let new_w := img_w * scale
  let new_h := img_h * scale
  let left := (sw - new_w) / 2
  let top := (sh - new_h) / 2
  return ⟨new_w, new_h, left, top⟩

/-- The float computation of `place_picture_fill` (core.py lines 170–182):
`scale = max(sw / img_w, sh / img_h)` ("cover"), scaled size, centred
offsets (possibly negative). -/
def compute_fill (img_w img_h sw sh : ℚ) : Except CoreError PlacementResult := do
  let rw ← pyDiv sw img_w
  let rh ← pyDiv sh img_h
  let scale := pyMax rw rh
  let new_w := img_w * scale
  let new_h := img_h * scale
  let left := (sw - new_w) / 2
  let top := (sh - new_h) / 2
  return ⟨new_w, new_h, left, top⟩

theorem except_bind_ok {ε α β : Type} (a : α) (f : α → Except ε β) :
    (Except.ok a >>= f) = f a := rfl

theorem except_bind_error {ε α β : Type} (e : ε) (f : α → Except ε β) :
    ((Except.error e : Except ε α) >>= f) = Except.error e := rfl

/-- Normal form of `compute_fit` on a non-degenerate image. -/
theorem compute_fit_eq (iw ih sw sh : ℚ) (hiw : iw ≠ 0) (hih : ih ≠ 0) :
    compute_fit iw ih sw sh =
      .ok ⟨iw * min (sw / iw) (sh / ih), ih * min (sw / iw) (sh / ih),
        (sw - iw * min (sw / iw) (sh / ih)) / 2,
        (sh - ih * min (sw / iw) (sh / ih)) / 2⟩ := by
  simp [compute_fit, pyDiv, hiw, hih, pyMin_eq_min, except_bind_ok]

/-- Normal form of `compute_fill` on a non-degenerate image. -/
theorem compute_fill_eq (iw ih sw sh : ℚ) (hiw : iw ≠ 0) (hih : ih ≠ 0) :
    compute_fill iw ih sw sh =
      .ok ⟨iw * max (sw / iw) (sh / ih), ih * max (sw / iw) (sh / ih),
        (sw - iw * max (sw / iw) (sh / ih)) / 2,
        (sh - ih * max (sw / iw) (sh / ih)) / 2⟩ := by
  simp [compute_fill, pyDiv, hiw, hih, pyMax_eq_max, except_bind_ok]

/-- **C1.** For every image with pixel dimensions `iw, ih > 0` and every
canvas `sw, sh > 0`, placement follows the stated algorithm:
`scale = min(sw/iw, sh/ih)` under Fit and `max` under Fill,
`new_w = iw*scale`, `new_h = ih*scale`, `offset = ((sw-new_w)/2, (sh-new_h)/2)`;
in particular a 1000×500 px image on a 10in × 7.5in canvas yields size
10in × 5in at offset (0, 1.25in) under Fit and size 15in × 7.5in at offset
(−2.5in, 0in) under Fill. -/
theorem C1_placement_algorithm :
    (∀ iw ih sw sh : ℚ, 0 < iw → 0 < ih → 0 < sw → 0 < sh →
      compute_fit iw ih sw sh =
        .ok ⟨iw * min (sw / iw) (sh / ih), ih * min (sw / iw) (sh / ih),
          (sw - iw * min (sw / iw) (sh / ih)) / 2,
          (sh - ih * min (sw / iw) (sh / ih)) / 2⟩ ∧
      compute_fill iw ih sw sh =
        .ok ⟨iw * max (sw / iw) (sh / ih), ih * max (sw / iw) (sh / ih),
          (sw - iw * max (sw / iw) (sh / ih)) / 2,
          (sh - ih * max (sw / iw) (sh / ih)) / 2⟩) ∧
    compute_fit 1000 500 10 (15/2) = .ok ⟨10, 5, 0, 5/4⟩ ∧
    compute_fill 1000 500 10 (15/2) = .ok ⟨15, 15/2, -5/2, 0⟩ := by
  refine ⟨fun iw ih sw sh hiw hih _ _ =>
    ⟨compute_fit_eq iw ih sw sh hiw.ne' hih.ne',
     compute_fill_eq iw ih sw sh hiw.ne' hih.ne'⟩, ?_, ?_⟩
  · simp only [compute_fit, pyDiv, pyMin]
    norm_num [except_bind_ok]
  · simp only [compute_fill, pyDiv, pyMax]
    norm_num [except_bind_ok]

/-- Witness for C1's universally quantified part at a 800×600 px image on
the 10×7.5 in canvas. -/
theorem C1_placement_algorithm_witness :
    compute_fit 800 600 10 (15/2) =
      .ok ⟨800 * min (10 / 800) ((15/2) / 600), 600 * min (10 / 800) ((15/2) / 600),
        (10 - 800 * min (10 / 800) ((15/2) / 600)) / 2,
        (15/2 - 600 * min (10 / 800) ((15/2) / 600)) / 2⟩ ∧
    compute_fill 800 600 10 (15/2) =
      .ok ⟨800 * max (10 / 800) ((15/2) / 600), 600 * max (10 / 800) ((15/2) / 600),
        (10 - 800 * max (10 / 800) ((15/2) / 600)) / 2,
        (15/2 - 600 * max (10 / 800) ((15/2) / 600)) / 2⟩ :=
  C1_placement_algorithm.1 800 600 10 (15/2)
    (by norm_num) (by norm_num) (by norm_num) (by norm_num)

/-- **C2.** For all `iw, ih > 0` and `sw, sh > 0`: under Fit the scaled
dimensions are each at most the canvas dimensions, under Fill each at
least the canvas dimensions, and in both modes the scaled aspect ratio
equals `iw/ih` (exactly over `ℚ`, hence within any tolerance `ε ≥ 0`). -/
theorem C2_fit_fill_bounds_no_distortion
    (iw ih sw sh : ℚ) (hiw : 0 < iw) (hih : 0 < ih) (hsw : 0 < sw) (hsh : 0 < sh) :
    ∃ pf pl : PlacementResult,
      compute_fit iw ih sw sh = .ok pf ∧ compute_fill iw ih sw sh = .ok pl ∧
      pf.new_w ≤ sw ∧ pf.new_h ≤ sh ∧ sw ≤ pl.new_w ∧ sh ≤ pl.new_h ∧
      pf.new_w / pf.new_h = iw / ih ∧ pl.new_w / pl.new_h = iw / ih := by
  have hsc_fit : 0 < min (sw / iw) (sh / ih) :=
    lt_min (div_pos hsw hiw) (div_pos hsh hih)
  have hsc_fill : 0 < max (sw / iw) (sh / ih) :=
    lt_of_lt_of_le (div_pos hsw hiw) (le_max_left _ _)
  refine ⟨_, _, compute_fit_eq iw ih sw sh hiw.ne' hih.ne',
    compute_fill_eq iw ih sw sh hiw.ne' hih.ne', ?_, ?_, ?_, ?_, ?_, ?_⟩
  · calc iw * min (sw / iw) (sh / ih) ≤ iw * (sw / iw) :=
          mul_le_mul_of_nonneg_left (min_le_left _ _) hiw.le
      _ = sw := mul_div_cancel₀ sw hiw.ne'
  · calc ih * min (sw / iw) (sh / ih) ≤ ih * (sh / ih) :=
          mul_le_mul_of_nonneg_left (min_le_right _ _) hih.le
      _ = sh := mul_div_cancel₀ sh hih.ne'
  · calc sw = iw * (sw / iw) := (mul_div_cancel₀ sw hiw.ne').symm
      _ ≤ iw * max (sw / iw) (sh / ih) :=
          mul_le_mul_of_nonneg_left (le_max_left _ _) hiw.le
  · calc sh = ih * (sh / ih) := (mul_div_cancel₀ sh hih.ne').symm
      _ ≤ ih * max (sw / iw) (sh / ih) :=
          mul_le_mul_of_nonneg_left (le_max_right _ _) hih.le
  · exact mul_div_mul_right iw ih hsc_fit.ne'
  · exact mul_div_mul_right iw ih hsc_fill.ne'

/-- Witness for C2 at the spec's scenario input (1000×500 px on 10×7.5 in). -/
theorem C2_fit_fill_bounds_no_distortion_witness :
    ∃ pf pl : PlacementResult,
      compute_fit 1000 500 10 (15/2) = .ok pf ∧
      compute_fill 1000 500 10 (15/2) = .ok pl ∧
      pf.new_w ≤ 10 ∧ pf.new_h ≤ 15/2 ∧ 10 ≤ pl.new_w ∧ 15/2 ≤ pl.new_h ∧
      pf.new_w / pf.new_h = 1000 / 500 ∧ pl.new_w / pl.new_h = 1000 / 500 :=
  C2_fit_fill_bounds_no_distortion 1000 500 10 (15/2)
    (by norm_num) (by norm_num) (by norm_num) (by norm_num)

/-- **C3.** For every canvas `sw, sh > 0`, if the image's width or height
is zero, placement fails fast with the explicit `degenerateImage` error
(the `ZeroDivisionError` the source raises, the spec's `DegenerateImage`
kind) instead of producing infinite or NaN geometry. -/
theorem C3_degenerate_image_fails_fast
    (iw ih sw sh : ℚ) (hsw : 0 < sw) (hsh : 0 < sh) (h : iw = 0 ∨ ih = 0) :
    compute_fit iw ih sw sh = .error .degenerateImage ∧
    compute_fill iw ih sw sh = .error .degenerateImage := by
  by_cases hiw : iw = 0
  · constructor <;> simp [compute_fit, compute_fill, pyDiv, hiw, except_bind_error]
  · have hih : ih = 0 := h.resolve_left hiw
    constructor <;>
      simp [compute_fit, compute_fill, pyDiv, hiw, hih, except_bind_ok, except_bind_error]

/-- Witness for C3: a 0×500 px image on the 10×7.5 in canvas. -/
theorem C3_degenerate_image_fails_fast_witness :
    compute_fit 0 500 10 (15/2) = .error .degenerateImage ∧
    compute_fill 0 500 10 (15/2) = .error .degenerateImage :=
  C3_degenerate_image_fails_fast 0 500 10 (15/2)
    (by norm_num) (by norm_num) (Or.inl rfl)

/-! ## Overwrite Guard (`confirm_overwrite`, core.py lines 190–196)

```python
def confirm_overwrite(path: Path, quiet: bool = False, force: bool = False) -> bool:
    if not path.exists():
        return True
    if quiet or force:
        return True
    reply = input(f"...").strip().lower()
    return reply == "y"
```

`path.exists()` is passed in as a boolean, and the interactive
collaborator's response (`input(...)`) as a string. -/

/-- Python's default `str.strip` whitespace set (ASCII part). -/
def pyIsSpace (c : Char) : Bool :=
  c == ' ' || c == '\t' || c == '\n' || c == '\x0d' || c == '\x0b' || c == '\x0c'

/-- Python `str.strip()`: remove leading and trailing whitespace. -/
def pyStrip (s : String) : String :=
  ⟨((s.data.dropWhile pyIsSpace).reverse.dropWhile pyIsSpace).reverse⟩

/-- Python `str.lower()` (ASCII model): lower-case every character. -/
def pyLower (s : String) : String :=
  ⟨s.data.map Char.toLower⟩

/-- `confirm_overwrite`, with the filesystem probe `path.exists()` and the
collaborator's reply passed explicitly. -/
def confirm_overwrite (path_exists quiet force : Bool) (reply : String) : Bool :=
  if !path_exists then true
  else if quiet || force then true
  else pyLower (pyStrip reply) == "y"

/-- **C8.** `confirm_overwrite` returns true immediately when the path does
not exist, or when `force` or `quiet` is set; otherwise it returns exactly
the collaborator's answer: true precisely on an affirmative reply (one
whose stripped, lower-cased form is `"y"`), false on any other reply. -/
theorem C8_may_write_policy (quiet force : Bool) (reply : String) :
    confirm_overwrite false quiet force reply = true ∧
    confirm_overwrite true quiet true reply = true ∧
    confirm_overwrite true true force reply = true ∧
    confirm_overwrite true false false reply = (pyLower (pyStrip reply) == "y") := by
  refine ⟨rfl, ?_, rfl, rfl⟩
  cases quiet <;> rfl

/-- **C10.** On an existing path with `quiet = false` and `force = false`,
only a reply whose whitespace-stripped, lower-cased form is exactly `"y"`
is affirmative; every other reply — including `"yes"` — yields `false`. -/
theorem C10_only_y_is_affirmative (reply : String) :
    confirm_overwrite true false false reply = (pyLower (pyStrip reply) == "y") ∧
    confirm_overwrite true false false "yes" = false ∧
    confirm_overwrite true false false " Y " = true := by
  exact ⟨rfl, by decide, by decide⟩

/-! ## Input Collector (`list_images`, core.py lines 118–123)

```python
def list_images(folder: Path) -> List[Path]:
    files = [p for p in folder.iterdir() if p.is_file() and p.suffix.lower() in ALLOWED_EXTS]
    files.sort(key=lambda p: p.name.lower())
    return files
```

A directory is modelled as the list of entries `folder.iterdir()` yields
(in arbitrary order); each entry carries its filename and whether it is a
regular file.  Python's `list.sort` is a stable sort on the key
`p.name.lower()`; it is modelled by `List.mergeSort` (stable) comparing
the same keys. -/

/-- One entry of a directory listing: a filename plus whether the entry is
a regular file (as opposed to a subdirectory). -/
structure Entry where
  name : String
  isFile : Bool
  deriving DecidableEq, Repr

/-- `ALLOWED_EXTS` (core.py lines 51–63). -/
def ALLOWED_EXTS : List String :=
  [".png", ".jpg", ".jpeg", ".tif", ".tiff", ".webp", ".bmp", ".gif", ".ico",
   ".heic", ".heif"]

/-- Python `pathlib.Path.suffix`: the substring from the last `'.'` of the
final path component, provided that dot is neither the first nor the last
character; otherwise the empty string. -/
def pySuffix (name : String) : String :=
  let cs := name.data
  match ((List.range cs.length).filter fun i => cs.getD i ' ' == '.').getLast? with
  | some i => if 0 < i ∧ i + 1 < cs.length then ⟨cs.drop i⟩ else ""
  | none => ""

/-- The comparison `list.sort(key=lambda p: p.name.lower())` performs. -/
def nameKeyLe (a b : Entry) : Bool :=
  decide (pyLower a.name ≤ pyLower b.name)

/-- `list_images`: keep the regular files whose lower-cased suffix is an
allowed extension, sorted case-insensitively by filename. -/
def list_images (entries : List Entry) : List Entry :=
  (entries.filter fun p =>
      p.isFile && decide (pyLower (pySuffix p.name) ∈ ALLOWED_EXTS)).mergeSort
    nameKeyLe

/-- **C7.** `list_images` returns exactly the regular-file entries whose
extension belongs case-insensitively to the supported set, and no others,
sorted by filename compared case-insensitively. -/
theorem C7_list_images_exact_and_sorted (entries : List Entry) (e : Entry) :
    (e ∈ list_images entries ↔
      e ∈ entries ∧ e.isFile = true ∧ pyLower (pySuffix e.name) ∈ ALLOWED_EXTS) ∧
    List.Pairwise (fun a b : Entry => pyLower a.name ≤ pyLower b.name)
      (list_images entries) := by
  constructor
  · rw [list_images, List.mem_mergeSort, List.mem_filter]
    simp
  · have h := @List.sorted_mergeSort _ nameKeyLe
      (fun a b c hab hbc => by
        simp only [nameKeyLe, decide_eq_true_eq] at *
        exact le_trans hab hbc)
      (fun a b => by
        simp only [nameKeyLe, Bool.or_eq_true, decide_eq_true_eq]
        exact le_total _ _)
      (entries.filter fun p =>
        p.isFile && decide (pyLower (pySuffix p.name) ∈ ALLOWED_EXTS))
    rw [list_images]
    exact h.imp (by simp only [nameKeyLe, decide_eq_true_eq]; exact fun h => h)

/-! ## Rasterization Adapter (`convert_pdf_to_images`, core.py lines 306–347)

```python
pages = convert_from_path(pdf_path.as_posix(), dpi=dpi)
out_paths = []
for i, page in enumerate(pages, start=1):
    out_path = temp_dir / f"page_{i:04d}.png"
    page.save(out_path, "PNG")
    out_paths.append(out_path)
return out_paths
```

Only the number of rendered pages matters for the claims; the function is
modelled as mapping the page count to the ordered list of filenames it
writes and returns.  `f"{i:04d}"` is the decimal numeral of `i` left-padded
with `'0'` to a minimum width of 4.  Python compares file names (strings)
lexicographically by code point; `pyStrLt` is that order. -/

/-- Fueled decimal digit extraction by repeated division by 10 (as CPython's
integer formatting does): digit characters of `n`, most significant first.
The fuel only needs to dominate the digit count; `decChars` passes `n`. -/
def decCharsAux (fuel n : Nat) : List Char :=
  match fuel with
  | 0 => []
  | fuel + 1 =>
      if n = 0 then [] else decCharsAux fuel (n / 10) ++ [Nat.digitChar (n % 10)]

/-- Decimal numeral of `n`, most significant digit first (empty for 0;
`fmt04`'s padding makes the `n = 0` case agree with Python regardless). -/
def decChars (n : Nat) : List Char := decCharsAux n n

/-- Python `f"{n:04d}"`: the decimal numeral left-padded with `'0'` to a
minimum width of 4 (wider numerals are not truncated). -/
def fmt04 (n : Nat) : String :=
  ⟨List.replicate (4 - (decChars n).length) '0' ++ decChars n⟩

/-- The temporary filename written for page `i`: `f"page_{i:04d}.png"`. -/
def pageName (i : Nat) : String := "page_" ++ fmt04 i ++ ".png"

/-- `convert_pdf_to_images`, abstracted over the page count returned by the
external rasterizer: the ordered list of temporary filenames written and
returned (page `i` is saved as `pageName i`, `i` counted from 1). -/
def convert_pdf_to_images (numPages : Nat) : List String :=
  (List.range numPages).map fun k => pageName (k + 1)

/-- Python `<` on strings: lexicographic by code point. -/
def pyStrLt (a b : String) : Prop := List.Lex (· < ·) a.data b.data

instance : DecidableRel pyStrLt := fun a b => List.Lex.decidableRel _ a.data b.data

lemma decCharsAux_eq (fuel : Nat) : ∀ n : Nat, n ≤ fuel →
    decCharsAux fuel n = ((Nat.digits 10 n).map Nat.digitChar).reverse := by
  induction fuel with
  | zero => intro n h; interval_cases n; simp [decCharsAux]
  | succ f ih =>
      intro n h
      rcases Nat.eq_zero_or_pos n with rfl | hpos
      · simp [decCharsAux]
      · rw [decCharsAux, if_neg hpos.ne',
          Nat.digits_def' (by norm_num : (1:ℕ) < 10) hpos,
          ih (n / 10) (by omega)]
        simp

lemma decChars_eq (n : Nat) :
    decChars n = ((Nat.digits 10 n).map Nat.digitChar).reverse :=
  decCharsAux_eq n n le_rfl

lemma digits_of_lt_10 (n : Nat) (h1 : 0 < n) (h2 : n < 10) :
    Nat.digits 10 n = [n] := by
  rw [Nat.digits_def' (by norm_num : (1:ℕ) < 10) h1,
    Nat.div_eq_of_lt h2, Nat.digits_zero, Nat.mod_eq_of_lt h2]

lemma digitChar_zero : Nat.digitChar 0 = '0' := rfl

/-- Below 10000 the padded numeral is exactly the four decimal digits. -/
lemma fmt04_data_eq (n : Nat) (h : n < 10000) :
    (fmt04 n).data = [Nat.digitChar (n / 1000), Nat.digitChar (n / 100 % 10),
      Nat.digitChar (n / 10 % 10), Nat.digitChar (n % 10)] := by
  have h10 : (1:ℕ) < 10 := by norm_num
  have e21 : n / 10 / 10 = n / 100 := by rw [Nat.div_div_eq_div_mul]
  have e32 : n / 100 / 10 = n / 1000 := by rw [Nat.div_div_eq_div_mul]
  rcases Nat.eq_zero_or_pos n with rfl | hp0
  · decide
  rcases lt_or_ge n 10 with hr | hr1
  · have d : Nat.digits 10 n = [n] := digits_of_lt_10 n hp0 hr
    have z3 : n / 1000 = 0 := by omega
    have z2 : n / 100 % 10 = 0 := by omega
    have z1 : n / 10 % 10 = 0 := by omega
    have m0 : n % 10 = n := Nat.mod_eq_of_lt hr
    simp [fmt04, decChars_eq, d, z3, z2, z1, m0, List.replicate, digitChar_zero]
  rcases lt_or_ge n 100 with hr | hr2
  · have d : Nat.digits 10 n = [n % 10, n / 10] := by
      rw [Nat.digits_def' h10 hp0, digits_of_lt_10 (n / 10) (by omega) (by omega)]
    have z3 : n / 1000 = 0 := by omega
    have z2 : n / 100 % 10 = 0 := by omega
    have m1 : n / 10 % 10 = n / 10 := Nat.mod_eq_of_lt (by omega)
    simp [fmt04, decChars_eq, d, z3, z2, m1, List.replicate, digitChar_zero]
  rcases lt_or_ge n 1000 with hr | hr3
  · have d : Nat.digits 10 n = [n % 10, n / 10 % 10, n / 100] := by
      rw [Nat.digits_def' h10 hp0, Nat.digits_def' h10 (show 0 < n / 10 by omega),
        digits_of_lt_10 (n / 10 / 10) (by omega) (by omega), e21]
    have z3 : n / 1000 = 0 := by omega
    have m2 : n / 100 % 10 = n / 100 := Nat.mod_eq_of_lt (by omega)
    simp [fmt04, decChars_eq, d, z3, m2, List.replicate, digitChar_zero]
  · have d : Nat.digits 10 n = [n % 10, n / 10 % 10, n / 100 % 10, n / 1000] := by
      rw [Nat.digits_def' h10 hp0, Nat.digits_def' h10 (show 0 < n / 10 by omega),
        Nat.digits_def' h10 (show 0 < n / 10 / 10 by omega),
        digits_of_lt_10 (n / 10 / 10 / 10) (by rw [e21, e32]; omega)
          (by rw [e21, e32]; omega), e21]
      rw [show n / 100 / 10 = n / 1000 from e32]
    simp [fmt04, decChars_eq, d, List.replicate, digitChar_zero]

lemma lex_append_left (p a b : List Char) (h : List.Lex (· < ·) a b) :
    List.Lex (· < ·) (p ++ a) (p ++ b) := by
  induction p with
  | nil => exact h
  | cons c cs ih => exact List.Lex.cons ih

lemma digitChar_lt (x y : Nat) (hx : x < 10) (hy : y < 10) (h : x < y) :
    Nat.digitChar x < Nat.digitChar y := by
  interval_cases x <;> interval_cases y <;> decide

lemma pageName_data (i : Nat) :
    (pageName i).data = "page_".data ++ ((fmt04 i).data ++ ".png".data) := by
  simp [pageName, String.data_append]

/-- Page names grow strictly in lexical order as long as the page index
stays within the 4 digits of the padding. -/
lemma pageName_lt (a b : Nat) (hab : a < b) (hb : b ≤ 9999) :
    pyStrLt (pageName a) (pageName b) := by
  unfold pyStrLt
  rw [pageName_data, pageName_data, fmt04_data_eq a (by omega),
    fmt04_data_eq b (by omega)]
  apply lex_append_left
  have key : a / 1000 < b / 1000 ∨ (a / 1000 = b / 1000 ∧
      (a / 100 % 10 < b / 100 % 10 ∨ (a / 100 % 10 = b / 100 % 10 ∧
        (a / 10 % 10 < b / 10 % 10 ∨ (a / 10 % 10 = b / 10 % 10 ∧
          a % 10 < b % 10))))) := by omega
  rcases key with h3 | ⟨e3, h2 | ⟨e2, h1 | ⟨e1, h0⟩⟩⟩
  · exact List.Lex.rel (digitChar_lt _ _ (by omega) (by omega) h3)
  · rw [e3]
    exact List.Lex.cons (List.Lex.rel (digitChar_lt _ _ (by omega) (by omega) h2))
  · rw [e3, e2]
    exact List.Lex.cons (List.Lex.cons
      (List.Lex.rel (digitChar_lt _ _ (by omega) (by omega) h1)))
  · rw [e3, e2, e1]
    exact List.Lex.cons (List.Lex.cons (List.Lex.cons
      (List.Lex.rel (digitChar_lt _ _ (by omega) (by omega) h0))))

/-- **C5 (counterexample).** On a 10000-page document the filename of page
10000 is not zero-padded to 4 digits and sorts lexically *before* the
filename of page 9999, so the lexical order of the returned filenames does
not match page order for every document. -/
theorem C5_counterexample_lexical_order :
    (convert_pdf_to_images 10000)[9998]? = some "page_9999.png" ∧
    (convert_pdf_to_images 10000)[9999]? = some "page_10000.png" ∧
    pyStrLt "page_10000.png" "page_9999.png" := by
  refine ⟨?_, ?_, by decide⟩ <;>
    · rw [convert_pdf_to_images, List.getElem?_map, List.getElem?_range (by omega),
        Option.map_some']
      decide

/-- **C5 (amended).** Rasterization writes exactly one temporary image per
page, named with the page index zero-padded to a minimum of 4 digits, and
returns the full ordered list (a zero-page document yields the empty
list); for every document of at most 9999 pages the lexical order of the
returned filenames matches page order. -/
theorem C5_names_ordered (n : Nat) (h : n ≤ 9999) :
    (convert_pdf_to_images n).length = n ∧
    (∀ k, k < n → (convert_pdf_to_images n)[k]? = some (pageName (k + 1))) ∧
    convert_pdf_to_images 0 = [] ∧
    List.Pairwise pyStrLt (convert_pdf_to_images n) := by
  refine ⟨by simp [convert_pdf_to_images], ?_, rfl, ?_⟩
  · intro k hk
    rw [convert_pdf_to_images, List.getElem?_map, List.getElem?_range hk,
      Option.map_some']
  · rw [convert_pdf_to_images, List.pairwise_map]
    have hr : List.Pairwise (· < ·) (List.range n) := List.pairwise_lt_range n
    exact hr.imp_of_mem fun {a b} ha hb hab =>
      pageName_lt (a + 1) (b + 1) (by omega)
        (by have := List.mem_range.mp hb; omega)

/-- Witness for C5's amended theorem at a 3-page document. -/
theorem C5_names_ordered_witness :
    (convert_pdf_to_images 3).length = 3 ∧
    (∀ k, k < 3 → (convert_pdf_to_images 3)[k]? = some (pageName (k + 1))) ∧
    convert_pdf_to_images 0 = [] ∧
    List.Pairwise pyStrLt (convert_pdf_to_images 3) :=
  C5_names_ordered 3 (by norm_num)

/-! ## Deck Assembler (`build_presentation`, core.py lines 199–227)

```python
prs = Presentation()
prs.slide_width = Inches(slide_width_in)
prs.slide_height = Inches(slide_height_in)
sw_emu = int(prs.slide_width)
sh_emu = int(prs.slide_height)
for img in image_iter:
    slide = prs.slides.add_slide(prs.slide_layouts[6])  # blank
    if mode == "fit":
        place_picture_fit(slide, img, sw_emu, sh_emu)
    else:
        place_picture_fill(slide, img, sw_emu, sh_emu)
prs.save(str(output_path))
```

A source image is its file path plus the natural EMU size python-pptx
assigns on insertion (`float(pic.width)`, `float(pic.height)`); a slide is
the list of picture shapes on it; a deck is its slide size (EMU) plus its
slides in order.  `prs.save` writes via `open(path, "wb")`; the filesystem
is a record of existing directories and of files (path ↦ saved deck).
`Presentation.save` does not create directories, so the open fails when
the parent directory is missing, and truncates (overwrites) an existing
file otherwise. -/

structure SourceImage where
  path : String
  natural_w : ℚ
  natural_h : ℚ
  deriving DecidableEq, Repr

structure Picture where
  path : String
  left : ℤ
  top : ℤ
  width : ℤ
  height : ℤ
  deriving DecidableEq, Repr

structure Slide where
  pictures : List Picture
  deriving DecidableEq, Repr

structure Deck where
  slide_width : ℤ
  slide_height : ℤ
  slides : List Slide
  deriving DecidableEq, Repr

/-- `pptx.util.Inches`: `Emu(int(inches * 914400))`. -/
def Inches (x : ℚ) : ℤ := pyInt (x * 914400)

/-- `place_picture_fit` in full (core.py lines 132–159): the picture shape
after the float placement computation and the truncating `int(...)`
geometry assignments. -/
def place_picture_fit (img : SourceImage) (slide_w_emu slide_h_emu : ℤ) :
    Except CoreError Picture := do
  let pr ← compute_fit img.natural_w img.natural_h (slide_w_emu : ℚ) (slide_h_emu : ℚ)
  return ⟨img.path, pyInt pr.left, pyInt pr.top, pyInt pr.new_w, pyInt pr.new_h⟩

/-- `place_picture_fill` in full (core.py lines 162–187). -/
def place_picture_fill (img : SourceImage) (slide_w_emu slide_h_emu : ℤ) :
    Except CoreError Picture := do
  let pr ← compute_fill img.natural_w img.natural_h (slide_w_emu : ℚ) (slide_h_emu : ℚ)
  return ⟨img.path, pyInt pr.left, pyInt pr.top, pyInt pr.new_w, pyInt pr.new_h⟩

/-- The slide-creating loop of `build_presentation`: one new blank slide
per image, in input order; the mode string is compared against `"fit"`,
anything else falls to the fill branch (as in the source's `if/else`). -/
def buildSlides (mode : String) (sw_emu sh_emu : ℤ) :
    List SourceImage → Except CoreError (List Slide)
  | [] => .ok []
  | img :: rest => do
      let pic ← if mode == "fit" then place_picture_fit img sw_emu sh_emu
                else place_picture_fill img sw_emu sh_emu
      let slides ← buildSlides mode sw_emu sh_emu rest
      return ⟨[pic]⟩ :: slides

/-- `build_presentation` up to (but not including) `prs.save`. -/
def build_presentation (images : List SourceImage)
    (slide_width_in slide_height_in : ℚ) (mode : String) :
    Except CoreError Deck := do
  let sw_emu := Inches slide_width_in
  let sh_emu := Inches slide_height_in
  let slides ← buildSlides mode sw_emu sh_emu images
  return ⟨sw_emu, sh_emu, slides⟩

/-- A filesystem: the set of existing directories (as component paths) and
the files, each a path with the deck stored there. -/
structure FileSystem where
  dirs : List (List String)
  files : List (List String × Deck)

/-- `prs.save(str(output_path))`: python-pptx serializes through
`open(path, "wb")`, which fails with `FileNotFoundError` when the parent
directory does not exist and otherwise truncates — unconditionally
overwriting — any existing file; no directory is ever created. -/
def save (fs : FileSystem) (path : List String) (deck : Deck) :
    Except CoreError FileSystem :=
  if path.dropLast ∈ fs.dirs then
    .ok ⟨fs.dirs, (path, deck) :: fs.files.filter (fun e => decide (e.1 ≠ path))⟩
  else .error .writeFailure

/-- Re-opening a saved file: look the path up in the filesystem. -/
def openDeck (fs : FileSystem) (path : List String) : Option Deck :=
  (fs.files.find? (fun e => decide (e.1 = path))).map (·.2)

/-- `build_presentation` including its final `prs.save`. -/
def build_and_save (fs : FileSystem) (images : List SourceImage)
    (path : List String) (w_in h_in : ℚ) (mode : String) :
    Except CoreError FileSystem := do
  let deck ← build_presentation images w_in h_in mode
  save fs path deck

lemma except_pure {ε α : Type} (a : α) : (pure a : Except ε α) = Except.ok a := rfl

lemma place_picture_fit_ok (img : SourceImage) (sw sh : ℤ)
    (hw : img.natural_w ≠ 0) (hh : img.natural_h ≠ 0) :
    ∃ pic, place_picture_fit img sw sh = .ok pic ∧ pic.path = img.path := by
  rw [place_picture_fit, compute_fit_eq _ _ _ _ hw hh, except_bind_ok]
  exact ⟨_, rfl, rfl⟩

lemma place_picture_fill_ok (img : SourceImage) (sw sh : ℤ)
    (hw : img.natural_w ≠ 0) (hh : img.natural_h ≠ 0) :
    ∃ pic, place_picture_fill img sw sh = .ok pic ∧ pic.path = img.path := by
  rw [place_picture_fill, compute_fill_eq _ _ _ _ hw hh, except_bind_ok]
  exact ⟨_, rfl, rfl⟩

/-- On non-degenerate images the slide loop succeeds and yields one slide
per image, in order, each holding exactly the picture of its image. -/
lemma buildSlides_ok (mode : String) (sw sh : ℤ) (images : List SourceImage)
    (him : ∀ img ∈ images, img.natural_w ≠ 0 ∧ img.natural_h ≠ 0) :
    ∃ slides, buildSlides mode sw sh images = .ok slides ∧
      List.Forall₂ (fun (s : Slide) (img : SourceImage) =>
        ∃ pic, s.pictures = [pic] ∧ pic.path = img.path) slides images := by
  induction images with
  | nil => exact ⟨[], rfl, List.Forall₂.nil⟩
  | cons img rest ih =>
      obtain ⟨hw, hh⟩ := him img (List.mem_cons_self img rest)
      obtain ⟨slides, hs, hf⟩ := ih fun i hi => him i (List.mem_cons_of_mem _ hi)
      by_cases hm : mode == "fit"
      · obtain ⟨pic, hp, hpath⟩ := place_picture_fit_ok img sw sh hw hh
        refine ⟨⟨[pic]⟩ :: slides, ?_, List.Forall₂.cons ⟨pic, rfl, hpath⟩ hf⟩
        simp only [buildSlides, if_pos hm, hp, hs, except_bind_ok, except_pure]
      · obtain ⟨pic, hp, hpath⟩ := place_picture_fill_ok img sw sh hw hh
        refine ⟨⟨[pic]⟩ :: slides, ?_, List.Forall₂.cons ⟨pic, rfl, hpath⟩ hf⟩
        simp only [buildSlides, if_neg hm, hp, hs, except_bind_ok, except_pure]

/-- On non-degenerate images `build_presentation` succeeds with the set
slide size and one slide per image in input order. -/
lemma build_presentation_ok (images : List SourceImage) (w h : ℚ) (mode : String)
    (him : ∀ img ∈ images, img.natural_w ≠ 0 ∧ img.natural_h ≠ 0) :
    ∃ deck, build_presentation images w h mode = .ok deck ∧
      deck.slide_width = Inches w ∧ deck.slide_height = Inches h ∧
      List.Forall₂ (fun (s : Slide) (img : SourceImage) =>
        ∃ pic, s.pictures = [pic] ∧ pic.path = img.path) deck.slides images := by
  obtain ⟨slides, hs, hf⟩ := buildSlides_ok mode (Inches w) (Inches h) images him
  exact ⟨⟨Inches w, Inches h, slides⟩,
    by simp only [build_presentation, hs, except_bind_ok, except_pure],
    rfl, rfl, hf⟩

lemma save_overwrites (fs : FileSystem) (path : List String) (deck : Deck)
    (hdir : path.dropLast ∈ fs.dirs) :
    ∃ fs', save fs path deck = .ok fs' ∧ openDeck fs' path = some deck ∧
      fs'.dirs = fs.dirs := by
  refine ⟨⟨fs.dirs, (path, deck) :: fs.files.filter (fun e => decide (e.1 ≠ path))⟩,
    by rw [save, if_pos hdir], ?_, rfl⟩
  rw [openDeck, List.find?_cons_of_pos _ (by simp)]
  rfl

/-- A filesystem with only the root directory and no files. -/
def fsRootOnly : FileSystem := ⟨[[]], []⟩

/-- **C4 (counterexample).** `build_presentation` does not create parent
directories: saving an empty deck to `out/deck.pptx` on a filesystem where
the directory `out` does not exist fails with a write error instead of
creating `out` and writing the file. -/
theorem C4_counterexample_no_mkdir :
    build_and_save fsRootOnly [] ["out", "deck.pptx"] 10 (15/2) "fit" =
      .error .writeFailure := by
  rw [build_and_save, build_presentation]
  rw [show buildSlides "fit" (Inches 10) (Inches (15/2)) [] = .ok [] from rfl,
    except_bind_ok, except_pure, except_bind_ok, save, if_neg (by decide)]

/-- **C4 (amended).** For every list of (non-degenerate) images and every
destination path whose parent directory exists, `build_presentation`
serializes the deck to the destination path, overwriting any existing file
at that path unconditionally; it does *not* create missing parent
directories (the save fails in that case, see the counterexample). -/
theorem C4_build_saves_and_overwrites (fs : FileSystem)
    (images : List SourceImage) (path : List String) (w h : ℚ) (mode : String)
    (him : ∀ img ∈ images, img.natural_w ≠ 0 ∧ img.natural_h ≠ 0)
    (hdir : path.dropLast ∈ fs.dirs) :
    ∃ deck fs', build_presentation images w h mode = .ok deck ∧
      build_and_save fs images path w h mode = .ok fs' ∧
      openDeck fs' path = some deck ∧ fs'.dirs = fs.dirs := by
  obtain ⟨deck, hb, -, -, -⟩ := build_presentation_ok images w h mode him
  obtain ⟨fs', hsv, hop, hdirs⟩ := save_overwrites fs path deck hdir
  exact ⟨deck, fs', hb, by rw [build_and_save, hb, except_bind_ok, hsv], hop, hdirs⟩

/-- A one-slide deck used to demonstrate overwriting an existing file. -/
def staleDeck : Deck := ⟨1, 1, [⟨[]⟩]⟩

/-- Witness for C4's amended theorem: saving an empty deck over an existing
file `deck.pptx` in the root directory succeeds and replaces the old
content. -/
theorem C4_build_saves_and_overwrites_witness :
    ∃ deck fs', build_presentation [] 10 (15/2) "fit" = .ok deck ∧
      build_and_save ⟨[[]], [(["deck.pptx"], staleDeck)]⟩ [] ["deck.pptx"]
        10 (15/2) "fit" = .ok fs' ∧
      openDeck fs' ["deck.pptx"] = some deck ∧
      fs'.dirs = (⟨[[]], [(["deck.pptx"], staleDeck)]⟩ : FileSystem).dirs :=
  C4_build_saves_and_overwrites ⟨[[]], [(["deck.pptx"], staleDeck)]⟩ [] ["deck.pptx"]
    10 (15/2) "fit" (by simp) (by simp)

/-- **C6.** Building a deck from N (non-degenerate) images creates exactly
N slides — one blank slide per image, in the caller's input order, each
holding exactly one picture, namely that image — and re-opening the saved
deck yields that same deck; the empty list yields a valid zero-slide deck
at the given canvas size. -/
theorem C6_one_slide_per_image_roundtrip (images : List SourceImage)
    (fs : FileSystem) (path : List String) (w h : ℚ) (mode : String)
    (him : ∀ img ∈ images, img.natural_w ≠ 0 ∧ img.natural_h ≠ 0)
    (hdir : path.dropLast ∈ fs.dirs) :
    ∃ deck, build_presentation images w h mode = .ok deck ∧
      deck.slides.length = images.length ∧
      List.Forall₂ (fun (s : Slide) (img : SourceImage) =>
        ∃ pic, s.pictures = [pic] ∧ pic.path = img.path) deck.slides images ∧
      (∃ fs', build_and_save fs images path w h mode = .ok fs' ∧
        openDeck fs' path = some deck) ∧
      deck.slide_width = Inches w ∧ deck.slide_height = Inches h ∧
      (images = [] → deck.slides = []) := by
  obtain ⟨deck, hb, hw, hh, hf⟩ := build_presentation_ok images w h mode him
  obtain ⟨fs', hsv, hop, -⟩ := save_overwrites fs path deck hdir
  refine ⟨deck, hb, hf.length_eq, hf,
    ⟨fs', by rw [build_and_save, hb, except_bind_ok, hsv], hop⟩, hw, hh, ?_⟩
  rintro rfl
  exact List.length_eq_zero.mp hf.length_eq

/-- Witness for C6 at a concrete two-image list (and, via the theorem's
last conjunct instantiated separately by the `[]` case being provable for
any input, the nonempty case). -/
theorem C6_one_slide_per_image_roundtrip_witness :
    ∃ deck, build_presentation [⟨"a.png", 800, 600⟩, ⟨"b.png", 400, 400⟩]
        10 (15/2) "fit" = .ok deck ∧
      deck.slides.length = 2 ∧
      List.Forall₂ (fun (s : Slide) (img : SourceImage) =>
        ∃ pic, s.pictures = [pic] ∧ pic.path = img.path) deck.slides
        [⟨"a.png", 800, 600⟩, ⟨"b.png", 400, 400⟩] ∧
      (∃ fs', build_and_save fsRootOnly [⟨"a.png", 800, 600⟩, ⟨"b.png", 400, 400⟩]
          ["out.pptx"] 10 (15/2) "fit" = .ok fs' ∧
        openDeck fs' ["out.pptx"] = some deck) ∧
      deck.slide_width = Inches 10 ∧ deck.slide_height = Inches (15/2) ∧
      ([⟨"a.png", 800, 600⟩, ⟨"b.png", 400, 400⟩] = ([] : List SourceImage) →
        deck.slides = []) :=
  C6_one_slide_per_image_roundtrip [⟨"a.png", 800, 600⟩, ⟨"b.png", 400, 400⟩]
    fsRootOnly ["out.pptx"] 10 (15/2) "fit"
    (by intro img hi
        rcases List.mem_cons.mp hi with rfl | hi
        · exact ⟨by norm_num, by norm_num⟩
        rcases List.mem_cons.mp hi with rfl | hi
        · exact ⟨by norm_num, by norm_num⟩
        · simp at hi)
    (by simp [fsRootOnly])

/-! ## Recursive folder walk (`process_folder`, core.py lines 367–389)

```python
def process_folder(folder: Path, recursive: bool, dpi: int, quiet: bool) -> None:
    ...
    if recursive:
        for sub in folder.rglob("*"):
            if sub.is_dir() and sub != folder:
                process_folder(sub, recursive, dpi, quiet)
    ...
```

Only the shape of the recursion matters for the claim: a directory tree is
a rose tree (`rglob("*")` entries that are not directories fail the
`is_dir()` filter and are irrelevant), `Dir.descWithSub` enumerates every
strict descendant directory — exactly what the `rglob` loop recurses on —
as its index path paired with its subtree, and `visits t` is the multiset
of invocation targets (as paths relative to `t`) generated by running
`process_folder t` with `recursive=True`: the call itself (`[]`) plus, for
every strict descendant, the invocations of the recursive call on it. -/

inductive Dir where
  | mk : List Dir → Dir

def Dir.subs : Dir → List Dir
  | .mk l => l

/-- The subtree at an index path (`none` when the path is invalid). -/
def Dir.at? : List Nat → Dir → Option Dir
  | [], t => some t
  | j :: rest, .mk subs =>
      match subs.get? j with
      | some c => Dir.at? rest c
      | none => none

mutual
/-- All strict descendant directories of a tree, each as its index path
paired with its subtree — the directories `folder.rglob("*")` yields
(restricted to directories, each exactly once). -/
def Dir.descWithSub : Dir → List (List Nat × Dir)
  | .mk subs => descWithSubAux 0 subs

def descWithSubAux : Nat → List Dir → List (List Nat × Dir)
  | _, [] => []
  | i, c :: rest =>
      (([i], c) :: (Dir.descWithSub c).map (fun qs => (i :: qs.1, qs.2)))
        ++ descWithSubAux (i + 1) rest
end

lemma dir_sizeOf (l : List Dir) : sizeOf (Dir.mk l) = 1 + sizeOf l := by simp

lemma sizeOf_mem_descWithSub :
    ∀ n (t : Dir), sizeOf t ≤ n → ∀ q s, (q, s) ∈ t.descWithSub → sizeOf s < sizeOf t := by
  intro n
  induction n with
  | zero =>
      intro t ht
      cases t with
      | mk subs => rw [dir_sizeOf] at ht; omega
  | succ n ih =>
      intro t ht q s hm
      cases t with
      | mk subs =>
          rw [Dir.descWithSub] at hm
          have main : ∀ (l : List Dir) (i : Nat), (∀ c ∈ l, sizeOf c < sizeOf (Dir.mk subs)) →
              (∀ c ∈ l, sizeOf c ≤ n) →
              ∀ q s, (q, s) ∈ descWithSubAux i l → sizeOf s < sizeOf (Dir.mk subs) := by
            intro l
            induction l with
            | nil => intro i _ _ q s hm; simp [descWithSubAux] at hm
            | cons c rest ihl =>
                intro i hlt hle q s hm
                rw [descWithSubAux] at hm
                rcases List.mem_append.mp hm with hm | hm
                · rcases List.mem_cons.mp hm with hm | hm
                  · simp only [Prod.mk.injEq] at hm
                    exact hm.2 ▸ hlt c (List.mem_cons_self ..)
                  · obtain ⟨⟨q0, s0⟩, hmem, heq⟩ := List.mem_map.mp hm
                    simp only [Prod.mk.injEq] at heq
                    have := ih c (hle c (List.mem_cons_self ..)) q0 s0 hmem
                    exact heq.2 ▸ lt_trans this (hlt c (List.mem_cons_self ..))
                · exact ihl (i + 1) (fun d hd => hlt d (List.mem_cons_of_mem _ hd))
                    (fun d hd => hle d (List.mem_cons_of_mem _ hd)) q s hm
          apply main subs 0 ?_ ?_ q s hm
          · intro c hc
            have := List.sizeOf_lt_of_mem hc
            rw [dir_sizeOf]
            omega
          · intro c hc
            have h1 := List.sizeOf_lt_of_mem hc
            rw [dir_sizeOf] at ht
            omega

/-- The run of `process_folder t` with `recursive=True`: the multiset of
directories (paths relative to `t`) that `process_folder` is invoked on —
the call on `t` itself, plus, for each strict descendant `sub` enumerated
by the `rglob` loop, everything the recursive call `process_folder(sub)`
invokes. -/
def visits (t : Dir) : List (List Nat) :=
  [] :: (t.descWithSub.attach.flatMap fun x => (visits x.1.2).map (x.1.1 ++ ·))
termination_by sizeOf t
decreasing_by
  exact sizeOf_mem_descWithSub (sizeOf t) t le_rfl x.1.1 x.1.2
    (by rw [← Prod.mk.eta (p := x.1)] at *; exact x.2)

lemma visits_eq (t : Dir) :
    visits t = [] :: t.descWithSub.flatMap fun x => (visits x.2).map (x.1 ++ ·) := by
  rw [visits]
  congr 1
  conv_rhs => rw [← List.attach_map_subtype_val t.descWithSub]
  rw [List.flatMap_map]

lemma descWithSubAux_ne_nil :
    ∀ (l : List Dir) i q s, (q, s) ∈ descWithSubAux i l → q ≠ [] := by
  intro l
  induction l with
  | nil => intro i q s hm; simp [descWithSubAux] at hm
  | cons c rest ih =>
      intro i q s hm
      rw [descWithSubAux] at hm
      rcases List.mem_append.mp hm with hm | hm
      · rcases List.mem_cons.mp hm with hm | hm
        · simp only [Prod.mk.injEq] at hm
          rw [hm.1]
          simp
        · obtain ⟨⟨q0, s0⟩, hmem, heq⟩ := List.mem_map.mp hm
          simp only [Prod.mk.injEq] at heq
          rw [← heq.1]
          simp
      · exact ih (i + 1) q s hm

lemma descWithSub_ne_nil (t : Dir) (q : List Nat) (s : Dir)
    (h : (q, s) ∈ t.descWithSub) : q ≠ [] := by
  cases t with
  | mk subs =>
      rw [Dir.descWithSub] at h
      exact descWithSubAux_ne_nil subs 0 q s h


lemma count_cons_map_self (i : Nat) (p' : List Nat) (Y : List (List Nat)) :
    List.count (i :: p') (Y.map (i :: ·)) = List.count p' Y := by
  induction Y with
  | nil => rfl
  | cons y Y ih =>
      simp only [List.map_cons, List.count_cons, ih, List.cons_beq_cons]
      simp

lemma count_cons_map_ne (i j : Nat) (hij : i ≠ j) (p' : List Nat)
    (Y : List (List Nat)) : List.count (j :: p') (Y.map (i :: ·)) = 0 := by
  rw [List.count_eq_zero]
  intro hm
  obtain ⟨y, -, hy⟩ := List.mem_map.mp hm
  exact hij (by injection hy)

lemma count_nil_flatMap (t : Dir) :
    List.count ([] : List Nat)
      (t.descWithSub.flatMap fun x => (visits x.2).map (x.1 ++ ·)) = 0 := by
  rw [List.count_eq_zero]
  intro hm
  obtain ⟨⟨q, s⟩, hqs, hm⟩ := List.mem_flatMap.mp hm
  obtain ⟨v, -, hv⟩ := List.mem_map.mp hm
  exact descWithSub_ne_nil t q s hqs (List.append_eq_nil.mp hv).1

lemma count_nil_visits (t : Dir) : (visits t).count ([] : List Nat) = 1 := by
  rw [visits_eq, List.count_cons_self, count_nil_flatMap]

lemma count_pos_visits (t : Dir) (p' : List Nat) (hne : p' ≠ []) :
    List.count p' (visits t) =
      List.count p' (t.descWithSub.flatMap fun x => (visits x.2).map (x.1 ++ ·)) := by
  rw [visits_eq, List.count_cons]
  simp only [beq_iff_eq]
  rw [if_neg (by simp [Ne.symm hne]), Nat.add_zero]

lemma countAux_spec (p' : List Nat) :
    ∀ (l : List Dir) (i j : Nat),
    List.count (j :: p')
        ((descWithSubAux i l).flatMap fun x => (visits x.2).map (x.1 ++ ·)) =
      if i ≤ j then
        (l[j - i]?.elim 0 fun c => if p' = [] then 1 else 2 * List.count p' (visits c))
      else 0 := by
  intro l
  induction l with
  | nil =>
      intro i j
      simp only [descWithSubAux, List.flatMap_nil, List.count_nil, List.getElem?_nil,
        Option.elim_none]
      split <;> rfl
  | cons c rest ih =>
      intro i j
      rw [descWithSubAux, List.flatMap_append, List.flatMap_cons, List.count_append,
        List.count_append]
      have hmapshape :
          ((Dir.descWithSub c).map (fun qs => (i :: qs.1, qs.2))).flatMap
              (fun x => (visits x.2).map (x.1 ++ ·)) =
            ((Dir.descWithSub c).flatMap fun x => (visits x.2).map (x.1 ++ ·)).map
              (i :: ·) := by
        rw [List.flatMap_map, List.map_flatMap]
        congr 1
        funext qs
        rw [List.map_map]
        congr 1
      have hsing : (visits c).map (([i] : List Nat) ++ ·) = (visits c).map (i :: ·) := rfl
      rw [hmapshape, hsing]
      rcases eq_or_ne i j with rfl | hij
      · rw [count_cons_map_self, count_cons_map_self, ih (i + 1) i, if_neg (by omega),
          if_pos le_rfl, Nat.sub_self, List.getElem?_cons_zero, Option.elim_some]
        rcases eq_or_ne p' [] with rfl | hne
        · rw [count_nil_visits, count_nil_flatMap, if_pos rfl]
        · rw [← count_pos_visits c p' hne, if_neg hne]
          omega
      · rw [count_cons_map_ne i j hij, count_cons_map_ne i j hij, ih (i + 1) j]
        rcases lt_or_ge j i with hji | hji
        · rw [if_neg (by omega), if_neg (by omega)]
        · have hj : i + 1 ≤ j := by omega
          rw [if_pos hj, if_pos (by omega),
            show j - i = (j - (i + 1)) + 1 by omega, List.getElem?_cons_succ]
          omega

theorem count_visits_pow (p : List Nat) : ∀ (t : Dir) (sub : Dir),
    Dir.at? p t = some sub →
    (visits t).count p = if p = [] then 1 else 2 ^ (p.length - 1) := by
  induction p with
  | nil => intro t sub h; rw [count_nil_visits, if_pos rfl]
  | cons j p' ih =>
      intro t sub h
      cases t with
      | mk subs =>
          rw [Dir.at?] at h
          cases hc : subs.get? j with
          | none => rw [hc] at h; exact absurd h (by simp)
          | some c =>
              rw [hc] at h
              rw [if_neg (by simp), count_pos_visits _ _ (by simp), Dir.descWithSub,
                countAux_spec p' subs 0 j, if_pos (Nat.zero_le j), Nat.sub_zero,
                show subs[j]? = some c from (List.get?_eq_getElem? subs j) ▸ hc,
                Option.elim_some]
              rcases eq_or_ne p' [] with rfl | hne
              · rw [if_pos rfl]
                simp
              · rw [if_neg hne, ih c sub h, if_neg hne]
                have hl : 1 ≤ p'.length := by
                  cases p' with
                  | nil => exact absurd rfl hne
                  | cons _ _ => simp
                rw [List.length_cons,
                  show p'.length + 1 - 1 = (p'.length - 1) + 1 by omega, pow_succ]
                ring

/-- **C9.** With `recursive=true`, `process_folder` recurses on every
descendant directory (not only direct children), so a subdirectory at
depth `d ≥ 2` below the input folder is processed `2^(d-1)` times rather
than once. -/
theorem C9_recursive_walk_exponential (t : Dir) (p : List Nat) (sub : Dir)
    (h : Dir.at? p t = some sub) (hd : 2 ≤ p.length) :
    (visits t).count p = 2 ^ (p.length - 1) ∧ (visits t).count p ≠ 1 := by
  have hne : p ≠ [] := by cases p <;> simp_all
  have hc := count_visits_pow p t sub h
  rw [if_neg hne] at hc
  refine ⟨hc, ?_⟩
  rw [hc]
  have h1 : 1 ≤ p.length - 1 := by omega
  have h2 : 2 ^ 1 ≤ 2 ^ (p.length - 1) := Nat.pow_le_pow_right (by norm_num) h1
  omega

/-- Witness for C9: in the chain root/0/0 the grandchild directory (depth
2) is processed twice. -/
theorem C9_recursive_walk_exponential_witness :
    (visits (Dir.mk [Dir.mk [Dir.mk []]])).count [0, 0] =
      2 ^ (([0, 0] : List Nat).length - 1) ∧
    (visits (Dir.mk [Dir.mk [Dir.mk []]])).count [0, 0] ≠ 1 :=
  C9_recursive_walk_exponential (Dir.mk [Dir.mk [Dir.mk []]]) [0, 0] (Dir.mk [])
    rfl (by norm_num)

end PptxBuilder
